import Mathlib

/-!
Verification development for the todo_cli repository's query engine and
manager.  The definitions below are shallow embeddings of the Rust sources
`src/src/todo/item.rs`, `src/src/todo/filters.rs`, `src/src/cli/handlers.rs`
and `src/src/todo/manager.rs`.  Machine integers (`u32`, `i64`) are modeled
as `Nat`/`Int` (the claims under study stay far below any wrap-around);
every call to `chrono::Local::now()` in the source is modeled by an explicit
`now : NaiveDateTime` parameter holding the value the ambient clock returns.
-/

namespace TodoCli

/-- Embedding of Rust's three-way comparison `cmp` on natural numbers. -/
def cmpNat (x y : Nat) : Ordering :=
  if x < y then .lt else if y < x then .gt else .eq

/-- Embedding of Rust's three-way comparison `cmp` on integers
(used for calendar day numbers). -/
def cmpInt (x y : Int) : Ordering :=
  if x < y then .lt else if y < x then .gt else .eq

/-- Embedding of `chrono::NaiveDateTime` (src/src/todo/item.rs stores
`due_date: Option<NaiveDateTime>`): a calendar date, modeled as a day
number, plus the time of day in seconds.  chrono's `Ord` is lexicographic
on (date, time of day). -/
structure NaiveDateTime where
  date : Int
  secs : Nat
deriving DecidableEq, Repr

/-- Derived `Ord::cmp` on `NaiveDateTime`: lexicographic date then time. -/
def NaiveDateTime.cmp (a b : NaiveDateTime) : Ordering :=
  (cmpInt a.date b.date).then (cmpNat a.secs b.secs)

/-- Derived strict comparison `<` on `NaiveDateTime`, as used by
`ListQuery::is_overdue` (`d < Local::now().naive_local()`). -/
def NaiveDateTime.ltb (a b : NaiveDateTime) : Bool :=
  decide (a.date < b.date) || (a.date == b.date && decide (a.secs < b.secs))

/-- Day number of a Gregorian calendar date (days since 1970-01-01),
the standard civil-from-date computation; used only to name concrete
dates such as 2025-08-07 in instance theorems. -/
def fromYmd (y m d : Int) : Int :=
  let y1 := if m ≤ 2 then y - 1 else y
  let m1 := if m ≤ 2 then m + 9 else m - 3
  let era := y1 / 400
  let yoe := y1 - era * 400
  let doy := (153 * m1 + 2) / 5 + d - 1
  let doe := yoe * 365 + yoe / 4 - yoe / 100 + doy
  era * 146097 + doe - 719468

/-- Embedding of `enum Priority { Low, Medium, High }`
(src/src/todo/item.rs), whose derived `Ord` is by declaration order. -/
inductive Priority where
  | Low
  | Medium
  | High
deriving DecidableEq, Repr

/-- Discriminant of a `Priority` value (its declaration index), which is
what the Rust derived `Ord` compares. -/
def Priority.toNat : Priority → Nat
  | .Low => 0
  | .Medium => 1
  | .High => 2

/-- Derived `Ord::cmp` on `Priority` (by declaration order). -/
def Priority.cmp (a b : Priority) : Ordering :=
  cmpNat a.toNat b.toNat

/-- Embedding of Rust's derived `Ord` on `Option<T>`: `None` is less than
any `Some`, and two `Some`s compare by the inner comparison. -/
def optCmp (c : α → α → Ordering) : Option α → Option α → Ordering
  | some u, some v => c u v
  | some _, none => .gt
  | none, some _ => .lt
  | none, none => .eq

/-- Embedding of `enum SortBy { Due, Priority, DueThenPriority }`
(src/src/todo/item.rs). -/
inductive SortBy where
  | Due
  | Priority
  | DueThenPriority
deriving DecidableEq, Repr

/-- Embedding of `struct TodoItem` (src/src/todo/item.rs).  Field getters
in the source (`id()`, `due_date()`, ...) return copies of the fields and
are modeled by the projections. -/
structure TodoItem where
  id : Nat
  title : String
  description : Option String
  completed : Bool
  due_date : Option NaiveDateTime
  priority : Option Priority
  tags : Option (List String)
  created_at : NaiveDateTime
  updated_at : NaiveDateTime
deriving DecidableEq, Repr

/-- Embedding of `TodoItem::new` (src/src/todo/item.rs); the source reads
`Local::now()` once for both timestamps, passed here as `now`. -/
def TodoItem.new (id : Nat) (title : String) (description : Option String)
    (completed : Bool) (due_date : Option NaiveDateTime)
    (priority : Option Priority) (tags : Option (List String))
    (now : NaiveDateTime) : TodoItem :=
  ⟨id, title, description, completed, due_date, priority, tags, now, now⟩

/-- Embedding of the comparator built by `apply_sorting`
(src/src/cli/handlers.rs lines 92-112): one arm per `(sort_by, ascending)`
pair, exactly as in the source `match`. -/
def sortComparator (s : SortBy) (ascending : Bool) (a b : TodoItem) : Ordering :=
  match s, ascending with
  | .Due, true => optCmp NaiveDateTime.cmp a.due_date b.due_date
  | .Due, false => optCmp NaiveDateTime.cmp b.due_date a.due_date
  | .Priority, true => optCmp Priority.cmp a.priority b.priority
  | .Priority, false => optCmp Priority.cmp b.priority a.priority
  | .DueThenPriority, true =>
      (optCmp NaiveDateTime.cmp a.due_date b.due_date).then
        (optCmp Priority.cmp a.priority b.priority)
  | .DueThenPriority, false =>
      (optCmp NaiveDateTime.cmp b.due_date a.due_date).then
        (optCmp Priority.cmp b.priority a.priority)

/-- Nonstrict order induced by the comparator: `a` may come before `b`. -/
def sortLe (s : SortBy) (ascending : Bool) (a b : TodoItem) : Prop :=
  sortComparator s ascending a b ≠ .gt

instance (s : SortBy) (ascending : Bool) : DecidableRel (sortLe s ascending) :=
  fun _ _ => instDecidableNot

/-- Embedding of `apply_sorting` (src/src/cli/handlers.rs):
`todos.sort_by(comparator)`.  Rust's `slice::sort_by` is a stable sort,
and a stable sort's output is uniquely determined by the comparator, so it
is embedded as insertion sort (which is stable). -/
def apply_sorting (s : SortBy) (ascending : Bool) (todos : List TodoItem) :
    List TodoItem :=
  todos.insertionSort (sortLe s ascending)

/-- Embedding of `struct ListQuery` (src/src/todo/filters.rs). -/
structure ListQuery where
  sort_by : SortBy
  asc : Bool
  desc : Bool
  only_complete : Bool
  only_pending : Bool
  priority : Option Priority
  overdue : Bool
  due_today : Bool
  due_tomorrow : Bool
  due_within : Option Int
deriving DecidableEq, Repr

/-- Embedding of `ListQuery::has_any_filters`. -/
def ListQuery.has_any_filters (q : ListQuery) : Bool :=
  q.only_complete || q.only_pending || q.priority.isSome || q.overdue
    || q.due_today || q.due_tomorrow || q.due_within.isSome

/-- Embedding of `ListQuery::passes_status_filter`. -/
def ListQuery.passes_status_filter (q : ListQuery) (item : TodoItem) : Bool :=
  match q.only_complete, q.only_pending with
  | true, false => item.completed
  | false, true => !item.completed
  | _, _ => true

/-- Embedding of `ListQuery::passes_priority_filter`. -/
def ListQuery.passes_priority_filter (q : ListQuery) (item : TodoItem) : Bool :=
  match q.priority with
  | some required_priority => item.priority == some required_priority
  | none => true

/-- Embedding of `ListQuery::is_due_today`: the source compares the due
date's calendar day against `Local::now().naive_local().date()`; the value
the clock returns is the parameter `now`. -/
def ListQuery.is_due_today (q : ListQuery) (item : TodoItem)
    (now : NaiveDateTime) : Bool :=
  if !q.due_today then false
  else item.due_date.map (fun d => d.date) == some now.date

/-- Embedding of `ListQuery::is_due_tomorrow`
(`Local::now().naive_local().date() + Duration::days(1)`). -/
def ListQuery.is_due_tomorrow (q : ListQuery) (item : TodoItem)
    (now : NaiveDateTime) : Bool :=
  if !q.due_tomorrow then false
  else item.due_date.map (fun d => d.date) == some (now.date + 1)

/-- Embedding of `ListQuery::is_overdue`:
`due_date.is_some_and(|d| d < Local::now().naive_local())`. -/
def ListQuery.is_overdue (q : ListQuery) (item : TodoItem)
    (now : NaiveDateTime) : Bool :=
  if !q.overdue then false
  else item.due_date.any (fun d => d.ltb now)

/-- Embedding of `ListQuery::is_due_within`: the due calendar day must lie
between today and today plus `days` (`Duration::days(days)` adds to the
date component). -/
def ListQuery.is_due_within (q : ListQuery) (item : TodoItem)
    (now : NaiveDateTime) : Bool :=
  match q.due_within with
  | some days =>
      item.due_date.any (fun d =>
        decide (d.date ≥ now.date) && decide (d.date ≤ now.date + days))
  | none => false

/-- Embedding of `ListQuery::passes_time_filter`: pass when no time filter
is set, otherwise OR of the individual time checks. -/
def ListQuery.passes_time_filter (q : ListQuery) (item : TodoItem)
    (now : NaiveDateTime) : Bool :=
  if !q.overdue && !q.due_today && !q.due_tomorrow && q.due_within.isNone then
    true
  else
    q.is_overdue item now || q.is_due_today item now
      || q.is_due_tomorrow item now || q.is_due_within item now

/-- Embedding of `ListQuery::item_passes_filters`: all items pass when no
filter is set, otherwise AND of status, priority and time groups. -/
def ListQuery.item_passes_filters (q : ListQuery) (item : TodoItem)
    (now : NaiveDateTime) : Bool :=
  if !q.has_any_filters then true
  else
    q.passes_status_filter item && q.passes_priority_filter item
      && q.passes_time_filter item now

/-- Model of Rust's `str::trim`: drop leading and trailing whitespace
(written over the character list so that it evaluates inside the
kernel). -/
def strTrim (s : String) : String :=
  ⟨((s.data.dropWhile Char.isWhitespace).reverse.dropWhile
      Char.isWhitespace).reverse⟩

/-- Embedding of `validate_text` (src/src/utils/validation.rs): trim,
reject empty, reject over-long (length modeled in characters; Rust counts
bytes, which agrees on ASCII input). -/
def validate_text (text : String) (len : Nat) : Option String :=
  let trimmed := strTrim text
  if trimmed.isEmpty then none
  else if len < trimmed.length then none
  else some trimmed

/-- Embedding of `struct TodoManager` (src/src/todo/manager.rs); the
`file_path` field and the file system are not modeled — `save` writes
`todos` and a later load returns the same list (the spec requires the JSON
round-trip to be lossless). -/
structure TodoManager where
  todos : List TodoItem
  next_id : Nat
deriving DecidableEq, Repr

/-- Embedding of `TodoManager::new` over an already-loaded todo list:
`next_id = todos.iter().map(|t| t.id()).max().unwrap_or(0) + 1`. -/
def TodoManager.fromLoaded (todos : List TodoItem) : TodoManager :=
  ⟨todos, (todos.map TodoItem.id).foldr max 0 + 1⟩

/-- Embedding of `save()` followed by `TodoManager::new` over the same
file path: the persisted list is reloaded and `next_id` recomputed. -/
def TodoManager.reload (m : TodoManager) : TodoManager :=
  TodoManager.fromLoaded m.todos

/-- Embedding of `TodoManager::add_todo`: validate title and description,
then push a new item with id `next_id` and increment `next_id`.  Due date
and priority arrive already parsed (the spec treats due-date parsing as an
external collaborator seen only through its `Option` output); `now` is the
clock value read by `TodoItem::new`.  Returns `none` on validation
failure, in which case the source leaves the manager unchanged. -/
def TodoManager.add_todo (m : TodoManager) (title : String)
    (description : Option String) (parsed_due : Option NaiveDateTime)
    (parsed_priority : Option Priority) (tags : Option (List String))
    (now : NaiveDateTime) : Option TodoManager :=
  match validate_text title 140 with
  | none => none
  | some t =>
    match description with
    | some d =>
      match validate_text d 1000 with
      | none => none
      | some d' =>
        some ⟨m.todos ++ [TodoItem.new m.next_id t (some d') false parsed_due
          parsed_priority tags now], m.next_id + 1⟩
    | none =>
      some ⟨m.todos ++ [TodoItem.new m.next_id t none false parsed_due
        parsed_priority tags now], m.next_id + 1⟩

/-- Embedding of `TodoManager::delete_todo`: retain items with a different
id; error (`none`) when nothing was removed. -/
def TodoManager.delete_todo (m : TodoManager) (id : Nat) : Option TodoManager :=
  let remaining := m.todos.filter (fun t => t.id != id)
  if remaining.length < m.todos.length then some ⟨remaining, m.next_id⟩
  else none

/-- Embedding of `TodoManager::toggle_todo`: flip `completed` on the item
with the given id (touching `updated_at` with the clock value `now`);
`find_todo_mut` rejects id 0 via `validate_id` and errors when the id is
absent. -/
def TodoManager.toggle_todo (m : TodoManager) (id : Nat)
    (now : NaiveDateTime) : Option TodoManager :=
  if id == 0 then none
  else if m.todos.any (fun t => t.id == id) then
    some ⟨m.todos.map (fun t =>
      if t.id == id then
        { t with completed := !t.completed, updated_at := now }
      else t), m.next_id⟩
  else none

/-- Embedding of `TodoManager::clear_all`: drop every todo; `next_id` is
untouched. -/
def TodoManager.clear_all (m : TodoManager) : TodoManager :=
  ⟨[], m.next_id⟩

/-- One Manager operation, for reasoning about operation sequences within
a single `TodoManager` lifetime.  `edit_todo` and `save` are omitted: they
modify neither any `id` nor `next_id`. -/
inductive ManagerOp where
  | add (title : String) (description : Option String)
      (due : Option NaiveDateTime) (priority : Option Priority)
      (tags : Option (List String)) (now : NaiveDateTime)
  | delete (id : Nat)
  | toggle (id : Nat) (now : NaiveDateTime)
  | clearAll

/-- Run one operation; the second component lists the ids assigned by the
operation (empty, or the single id printed by `add_todo`).  A failing
operation leaves the manager unchanged, as the source's early `?` return
does. -/
def stepOp (m : TodoManager) : ManagerOp → TodoManager × List Nat
  | .add t d due p tags now =>
    match m.add_todo t d due p tags now with
    | some m' => (m', [m.next_id])
    | none => (m, [])
  | .delete id => ((m.delete_todo id).getD m, [])
  | .toggle id now => ((m.toggle_todo id now).getD m, [])
  | .clearAll => (m.clear_all, [])

/-- Run a sequence of operations, collecting every assigned id in order. -/
def runOps (m : TodoManager) : List ManagerOp → TodoManager × List Nat
  | [] => (m, [])
  | op :: ops =>
    let r := stepOp m op
    let rest := runOps r.1 ops
    (rest.1, r.2 ++ rest.2)

/-! Order-theoretic facts about the embedded comparators. -/

theorem cmpNat_eq_lt {x y : Nat} : cmpNat x y = .lt ↔ x < y := by
  unfold cmpNat; split_ifs <;> simp_all

theorem cmpNat_eq_gt {x y : Nat} : cmpNat x y = .gt ↔ y < x := by
  unfold cmpNat; split_ifs <;> simp_all
  all_goals omega

theorem cmpNat_eq_eq {x y : Nat} : cmpNat x y = .eq ↔ x = y := by
  unfold cmpNat; split_ifs <;> simp_all
  all_goals omega

theorem cmpInt_eq_lt {x y : Int} : cmpInt x y = .lt ↔ x < y := by
  unfold cmpInt; split_ifs <;> simp_all

theorem cmpInt_eq_gt {x y : Int} : cmpInt x y = .gt ↔ y < x := by
  unfold cmpInt; split_ifs <;> simp_all
  all_goals omega

theorem cmpInt_eq_eq {x y : Int} : cmpInt x y = .eq ↔ x = y := by
  unfold cmpInt; split_ifs <;> simp_all
  all_goals omega

theorem cmpNat_swap (x y : Nat) : cmpNat y x = (cmpNat x y).swap := by
  unfold cmpNat; split_ifs <;> first | rfl | omega

theorem cmpInt_swap (x y : Int) : cmpInt y x = (cmpInt x y).swap := by
  unfold cmpInt; split_ifs <;> first | rfl | omega

theorem then_ne_gt {o p : Ordering} :
    o.then p ≠ .gt ↔ o = .lt ∨ (o = .eq ∧ p ≠ .gt) := by
  cases o <;> cases p <;> decide

theorem dt_cmp_eq_eq {a b : NaiveDateTime} :
    NaiveDateTime.cmp a b = .eq ↔ a = b := by
  cases a; cases b
  simp [NaiveDateTime.cmp, Ordering.then_eq_eq, cmpInt_eq_eq, cmpNat_eq_eq,
    NaiveDateTime.mk.injEq]

theorem dt_le_trans {a b c : NaiveDateTime}
    (h1 : NaiveDateTime.cmp a b ≠ .gt) (h2 : NaiveDateTime.cmp b c ≠ .gt) :
    NaiveDateTime.cmp a c ≠ .gt := by
  simp only [NaiveDateTime.cmp, Ne, Ordering.then_eq_gt, cmpInt_eq_gt,
    cmpInt_eq_eq, cmpNat_eq_gt] at *
  omega

theorem dt_lt_trans {a b c : NaiveDateTime}
    (h1 : NaiveDateTime.cmp a b = .lt) (h2 : NaiveDateTime.cmp b c = .lt) :
    NaiveDateTime.cmp a c = .lt := by
  simp only [NaiveDateTime.cmp, Ordering.then_eq_lt, cmpInt_eq_lt,
    cmpInt_eq_eq, cmpNat_eq_lt] at *
  omega

theorem dt_cmp_swap (a b : NaiveDateTime) :
    NaiveDateTime.cmp b a = (NaiveDateTime.cmp a b).swap := by
  unfold NaiveDateTime.cmp
  rw [Ordering.swap_then, ← cmpInt_swap, ← cmpNat_swap]

theorem prio_cmp_eq_eq {a b : Priority} : Priority.cmp a b = .eq ↔ a = b := by
  cases a <;> cases b <;> decide

theorem prio_le_trans {a b c : Priority}
    (h1 : Priority.cmp a b ≠ .gt) (h2 : Priority.cmp b c ≠ .gt) :
    Priority.cmp a c ≠ .gt := by
  simp only [Priority.cmp, Ne, cmpNat_eq_gt] at *
  omega

theorem prio_cmp_swap (a b : Priority) :
    Priority.cmp b a = (Priority.cmp a b).swap := by
  unfold Priority.cmp
  rw [← cmpNat_swap]

theorem optCmp_swap {c : α → α → Ordering}
    (hc : ∀ x y, c y x = (c x y).swap) (x y : Option α) :
    optCmp c y x = (optCmp c x y).swap := by
  cases x <;> cases y <;> first | rfl | exact hc _ _

theorem optCmp_eq_eq {c : α → α → Ordering}
    (hc : ∀ x y, c x y = .eq ↔ x = y) (x y : Option α) :
    optCmp c x y = .eq ↔ x = y := by
  cases x <;> cases y <;> simp [optCmp, hc]

theorem optCmp_le_trans {c : α → α → Ordering}
    (hc : ∀ x y z, c x y ≠ .gt → c y z ≠ .gt → c x z ≠ .gt)
    {x y z : Option α} (h1 : optCmp c x y ≠ .gt) (h2 : optCmp c y z ≠ .gt) :
    optCmp c x z ≠ .gt := by
  cases x <;> cases y <;> cases z <;> simp_all [optCmp]
  exact hc _ _ _ h1 h2

theorem optCmp_lt_trans {c : α → α → Ordering}
    (hc : ∀ x y z, c x y = .lt → c y z = .lt → c x z = .lt)
    {x y z : Option α} (h1 : optCmp c x y = .lt) (h2 : optCmp c y z = .lt) :
    optCmp c x z = .lt := by
  cases x <;> cases y <;> cases z <;> simp_all [optCmp]
  exact hc _ _ _ h1 h2

theorem sortComparator_false_eq (s : SortBy) (a b : TodoItem) :
    sortComparator s false a b = sortComparator s true b a := by
  cases s <;> rfl

theorem sortComparator_swap (s : SortBy) (ascending : Bool) (a b : TodoItem) :
    sortComparator s ascending b a = (sortComparator s ascending a b).swap := by
  cases s <;> cases ascending <;> simp only [sortComparator]
  · exact optCmp_swap dt_cmp_swap _ _
  · exact optCmp_swap dt_cmp_swap _ _
  · exact optCmp_swap prio_cmp_swap _ _
  · exact optCmp_swap prio_cmp_swap _ _
  · rw [Ordering.swap_then, ← optCmp_swap dt_cmp_swap, ← optCmp_swap prio_cmp_swap]
  · rw [Ordering.swap_then, ← optCmp_swap dt_cmp_swap, ← optCmp_swap prio_cmp_swap]

theorem sortLe_trans (s : SortBy) (ascending : Bool) :
    ∀ a b c, sortLe s ascending a b → sortLe s ascending b c →
      sortLe s ascending a c := by
  have core : ∀ s a b c, sortLe s true a b → sortLe s true b c →
      sortLe s true a c := by
    intro s a b c h1 h2
    cases s with
    | Due =>
      simp only [sortLe, sortComparator] at *
      exact optCmp_le_trans @dt_le_trans h1 h2
    | Priority =>
      simp only [sortLe, sortComparator] at *
      exact optCmp_le_trans @prio_le_trans h1 h2
    | DueThenPriority =>
      simp only [sortLe, sortComparator, then_ne_gt] at *
      rcases h1 with h1 | ⟨h1, h1p⟩ <;> rcases h2 with h2 | ⟨h2, h2p⟩
      · exact Or.inl (optCmp_lt_trans @dt_lt_trans h1 h2)
      · rw [optCmp_eq_eq (fun _ _ => dt_cmp_eq_eq) _ _] at h2
        rw [← h2]
        exact Or.inl h1
      · rw [optCmp_eq_eq (fun _ _ => dt_cmp_eq_eq) _ _] at h1
        rw [h1]
        exact Or.inl h2
      · rw [optCmp_eq_eq (fun _ _ => dt_cmp_eq_eq) _ _] at h1 h2
        refine Or.inr ⟨?_, optCmp_le_trans @prio_le_trans h1p h2p⟩
        rw [optCmp_eq_eq (fun _ _ => dt_cmp_eq_eq) _ _, h1, h2]
  cases ascending with
  | true => exact core s
  | false =>
    intro a b c h1 h2
    simp only [sortLe, sortComparator_false_eq] at *
    exact core s c b a h2 h1

theorem sortLe_total (s : SortBy) (ascending : Bool) (a b : TodoItem) :
    sortLe s ascending a b ∨ sortLe s ascending b a := by
  by_cases h : sortComparator s ascending a b = .gt
  · refine Or.inr ?_
    unfold sortLe
    rw [sortComparator_swap, h]
    decide
  · exact Or.inl h

instance (s : SortBy) (ascending : Bool) : IsTrans TodoItem (sortLe s ascending) :=
  ⟨sortLe_trans s ascending⟩

instance (s : SortBy) (ascending : Bool) : IsTotal TodoItem (sortLe s ascending) :=
  ⟨sortLe_total s ascending⟩

theorem dt_cmp_refl (a : NaiveDateTime) : NaiveDateTime.cmp a a = .eq :=
  dt_cmp_eq_eq.mpr rfl

theorem optCmp_refl {c : α → α → Ordering} (hc : ∀ x, c x x = .eq)
    (x : Option α) : optCmp c x x = .eq := by
  cases x <;> simp [optCmp, hc]

theorem then_of_ne_eq {o p : Ordering} (h : o ≠ .eq) : o.then p = o := by
  cases o <;> first | rfl | exact absurd rfl h

/-- When `a` is below every element of `X`, ordered insertion puts it in
front. -/
theorem orderedInsert_eq_cons {r : α → α → Prop} [DecidableRel r] {a : α}
    {X : List α} (h : ∀ c ∈ X, r a c) : X.orderedInsert r a = a :: X := by
  cases X with
  | nil => rfl
  | cons b t => exact List.orderedInsert_of_le r t (h b (List.mem_cons_self b t))

/-- Filtering by a predicate that is compatible with the order commutes
with ordered insertion of an element satisfying the predicate, provided the
list is sorted. -/
theorem filter_orderedInsert_pos {r s : α → α → Prop} [DecidableRel r]
    [DecidableRel s] {p : α → Bool}
    (htrans : ∀ x y z, r x y → r y z → r x z)
    (hcompat : ∀ x y, p x = true → p y = true → (r x y ↔ s x y))
    {a : α} (hpa : p a = true) :
    ∀ {L : List α}, L.Pairwise r →
      (L.orderedInsert r a).filter p = (L.filter p).orderedInsert s a := by
  intro L
  induction L with
  | nil => intro _; simp [List.orderedInsert, hpa]
  | cons b t ih =>
    intro hpair
    rcases List.pairwise_cons.mp hpair with ⟨hb, ht⟩
    by_cases hr : r a b
    · rw [List.orderedInsert, if_pos hr]
      have hall : ∀ c ∈ (b :: t).filter p, s a c := by
        intro c hc
        rcases List.mem_filter.mp hc with ⟨hcmem, hpc⟩
        have hrac : r a c := by
          rcases List.mem_cons.mp hcmem with rfl | hct
          · exact hr
          · exact htrans _ _ _ hr (hb c hct)
        exact (hcompat a c hpa hpc).mp hrac
      rw [orderedInsert_eq_cons hall]
      simp [List.filter_cons, hpa]
    · rw [List.orderedInsert, if_neg hr]
      by_cases hpb : p b = true
      · have h1 : (b :: t.orderedInsert r a).filter p
            = b :: (t.orderedInsert r a).filter p := by
          simp [List.filter_cons, hpb]
        have h2 : (b :: t).filter p = b :: t.filter p := by
          simp [List.filter_cons, hpb]
        have hns : ¬ s a b := fun hs => hr ((hcompat a b hpa hpb).mpr hs)
        rw [h1, h2, ih ht, List.orderedInsert, if_neg hns]
      · have hpb' : p b = false := by simpa using hpb
        have h1 : (b :: t.orderedInsert r a).filter p
            = (t.orderedInsert r a).filter p := by
          simp [List.filter_cons, hpb']
        have h2 : (b :: t).filter p = t.filter p := by
          simp [List.filter_cons, hpb']
        rw [h1, h2, ih ht]

/-- Ordered insertion of an element not satisfying the filter predicate is
invisible to the filter. -/
theorem filter_orderedInsert_neg {r : α → α → Prop} [DecidableRel r]
    {p : α → Bool} {a : α} (hpa : p a = false) :
    ∀ L : List α, (L.orderedInsert r a).filter p = L.filter p := by
  intro L
  induction L with
  | nil => simp [List.orderedInsert, hpa]
  | cons b t ih =>
    by_cases hr : r a b
    · rw [List.orderedInsert, if_pos hr]
      simp [List.filter_cons, hpa]
    · rw [List.orderedInsert, if_neg hr]
      simp [List.filter_cons, ih]

/-- Stable sorting then filtering an order-compatible class equals
filtering then stable sorting by the class-restricted order. -/
theorem filter_insertionSort (r s : α → α → Prop) [DecidableRel r]
    [DecidableRel s] [IsTotal α r] [IsTrans α r] (p : α → Bool)
    (hcompat : ∀ x y, p x = true → p y = true → (r x y ↔ s x y)) :
    ∀ l : List α, (l.insertionSort r).filter p = (l.filter p).insertionSort s := by
  intro l
  induction l with
  | nil => rfl
  | cons a t ih =>
    simp only [List.insertionSort]
    by_cases hpa : p a = true
    · rw [filter_orderedInsert_pos (fun x y z => IsTrans.trans x y z) hcompat hpa
        (List.sorted_insertionSort r t), ih]
      have h2 : (a :: t).filter p = a :: t.filter p := by
        simp [List.filter_cons, hpa]
      rw [h2]
      rfl
    · have hpa' : p a = false := by simpa using hpa
      rw [filter_orderedInsert_neg hpa', ih]
      have h2 : (a :: t).filter p = t.filter p := by
        simp [List.filter_cons, hpa']
      rw [h2]

/-- For equal due dates, the lexicographic order agrees with the priority
order (in either direction). -/
theorem due_eq_lex_iff_prio (ascending : Bool) {a b : TodoItem}
    (h : a.due_date = b.due_date) :
    (sortLe .DueThenPriority ascending a b ↔ sortLe .Priority ascending a b) := by
  have hrefl : ∀ x : Option NaiveDateTime,
      optCmp NaiveDateTime.cmp x x = .eq := optCmp_refl dt_cmp_refl
  cases ascending <;> simp only [sortLe, sortComparator]
  · rw [← h, hrefl a.due_date]
    exact Iff.rfl
  · rw [h, hrefl b.due_date]
    exact Iff.rfl

/-- The lexicographic comparator refines the due-date comparator. -/
theorem lex_le_imp_due_le (ascending : Bool) (a b : TodoItem)
    (h : sortLe .DueThenPriority ascending a b) :
    sortComparator .Due ascending a b ≠ .gt := by
  cases ascending <;> simp only [sortLe, sortComparator, then_ne_gt] at h ⊢ <;>
    rcases h with h | ⟨h, -⟩ <;> simp [h]

/-! Concrete records used for witnesses, counterexamples and instance
claims.  The due-date day numbers are written via `fromYmd`. -/

/-- Timestamp used to fill the (irrelevant) bookkeeping fields. -/
def dtZero : NaiveDateTime := ⟨0, 0⟩

/-- Concrete record builder: only id, due date and priority vary. -/
def mkItem (id : Nat) (due : Option NaiveDateTime) (pri : Option Priority) :
    TodoItem :=
  ⟨id, "task", none, false, due, pri, none, dtZero, dtZero⟩

/-- Record 1 of the spec's concrete sort scenario: due 2025-08-10, no
priority. -/
def rec1 : TodoItem := mkItem 1 (some ⟨fromYmd 2025 8 10, 0⟩) none

/-- Record 2: due 2025-08-08, Medium priority. -/
def rec2 : TodoItem := mkItem 2 (some ⟨fromYmd 2025 8 8, 0⟩) (some .Medium)

/-- Record 3: no due date, High priority. -/
def rec3 : TodoItem := mkItem 3 none (some .High)

/-- Record 4: due 2025-08-10, no priority (ties with rec1 on every key). -/
def rec4 : TodoItem := mkItem 4 (some ⟨fromYmd 2025 8 10, 0⟩) none

/-- C1 (counterexample): the claim says that with `A` concrete and `B`
missing the sort attribute, ascending sort places `A` before `B`.  The
code derives `Option`'s order, where `None` is smallest: sorting
`[rec2, rec3]` ascending by due date does not keep `rec2` (concrete due)
first. -/
theorem c1_counterexample :
    rec2.due_date.isSome = true ∧ rec3.due_date = none ∧
      apply_sorting .Due true [rec2, rec3] ≠ [rec2, rec3] := by
  refine ⟨rfl, rfl, ?_⟩
  decide

/-- C1 (amended): a record with `None` in the active sort field sorts
before any concrete value in ascending order and after it in descending
order; two `None` values compare equal. -/
theorem c1_amended (A B : TodoItem) :
    (A.due_date.isSome = true → B.due_date = none →
      apply_sorting .Due true [A, B] = [B, A] ∧
        apply_sorting .Due false [A, B] = [A, B]) ∧
    (A.priority.isSome = true → B.priority = none →
      apply_sorting .Priority true [A, B] = [B, A] ∧
        apply_sorting .Priority false [A, B] = [A, B]) ∧
    (∀ ascending, A.due_date = none → B.due_date = none →
      sortComparator .Due ascending A B = .eq) ∧
    (∀ ascending, A.priority = none → B.priority = none →
      sortComparator .Priority ascending A B = .eq) := by
  refine ⟨?_, ?_, ?_, ?_⟩
  · intro hA hB
    obtain ⟨dt, hdt⟩ := Option.isSome_iff_exists.mp hA
    constructor <;>
      simp [apply_sorting, List.insertionSort, List.orderedInsert, sortLe,
        sortComparator, hdt, hB, optCmp]
  · intro hA hB
    obtain ⟨pr, hpr⟩ := Option.isSome_iff_exists.mp hA
    constructor <;>
      simp [apply_sorting, List.insertionSort, List.orderedInsert, sortLe,
        sortComparator, hpr, hB, optCmp]
  · intro ascending hA hB
    cases ascending <;> simp [sortComparator, hA, hB, optCmp]
  · intro ascending hA hB
    cases ascending <;> simp [sortComparator, hA, hB, optCmp]

/-- C1 (witness): the amended behavior at the concrete pair
`rec2` (due 2025-08-08) and `rec3` (no due date). -/
theorem c1_amended_witness :
    rec2.due_date.isSome = true ∧ rec3.due_date = none ∧
      apply_sorting .Due true [rec2, rec3] = [rec3, rec2] ∧
      apply_sorting .Due false [rec2, rec3] = [rec2, rec3] :=
  ⟨by decide, rfl, (c1_amended rec2 rec3).1 (by decide) rfl⟩

/-- C2 (counterexample): on the spec's concrete records, sorting by due
ascending does not give id order `[2, 1, 3]`, and sorting by priority
ascending does not give `[2, 3, 1]`. -/
theorem c2_counterexample :
    (apply_sorting .Due true [rec1, rec2, rec3]).map TodoItem.id ≠ [2, 1, 3] ∧
    (apply_sorting .Priority true [rec1, rec2, rec3]).map TodoItem.id ≠ [2, 3, 1] := by
  decide

/-- C2 (amended): on those records the code produces id order `[3, 2, 1]`
for due ascending (missing due date first) and `[1, 2, 3]` for priority
ascending (missing priority first). -/
theorem c2_amended :
    (apply_sorting .Due true [rec1, rec2, rec3]).map TodoItem.id = [3, 2, 1] ∧
    (apply_sorting .Priority true [rec1, rec2, rec3]).map TodoItem.id = [1, 2, 3] := by
  decide

/-- C3: `apply_sorting` is stable — two records that compare equal under
the active comparator keep their relative input order, for every key and
direction. -/
theorem c3_sort_stability (s : SortBy) (ascending : Bool) (l : List TodoItem)
    (a b : TodoItem) (hsub : List.Sublist [a, b] l)
    (heq : sortComparator s ascending a b = .eq) :
    List.Sublist [a, b] (apply_sorting s ascending l) :=
  List.pair_sublist_insertionSort (by simp [sortLe, heq]) hsub

/-- C3 (witness): `rec1` and `rec4` tie on priority (both `None`) inside a
three-element list and stay in input order after sorting by priority. -/
theorem c3_sort_stability_witness :
    List.Sublist [rec1, rec4] [rec1, rec2, rec4] ∧
      sortComparator .Priority true rec1 rec4 = .eq ∧
      List.Sublist [rec1, rec4] (apply_sorting .Priority true [rec1, rec2, rec4]) :=
  ⟨by decide, by decide,
    c3_sort_stability .Priority true [rec1, rec2, rec4] rec1 rec4
      (by decide) (by decide)⟩

/-- C4: sorting by `DueThenPriority` orders primarily by due date; each
class of records with a common due date (including the all-`None` class)
appears exactly as sorting that class by priority alone would order it;
and the priority comparison never affects pairs with different due dates. -/
theorem c4_due_then_priority (ascending : Bool) (l : List TodoItem) :
    List.Pairwise (fun a b => sortComparator .Due ascending a b ≠ .gt)
        (apply_sorting .DueThenPriority ascending l)
    ∧ (∀ d : Option NaiveDateTime,
        (apply_sorting .DueThenPriority ascending l).filter
            (fun x => x.due_date == d)
          = apply_sorting .Priority ascending
              (l.filter (fun x => x.due_date == d)))
    ∧ (∀ a b : TodoItem, sortComparator .Due ascending a b ≠ .eq →
        sortComparator .DueThenPriority ascending a b
          = sortComparator .Due ascending a b) := by
  refine ⟨?_, ?_, ?_⟩
  · exact (List.sorted_insertionSort (sortLe .DueThenPriority ascending) l).imp
      (fun h => lex_le_imp_due_le ascending _ _ h)
  · intro d
    refine filter_insertionSort _ _ _ ?_ l
    intro x y hx hy
    have hxd : x.due_date = d := by simpa using hx
    have hyd : y.due_date = d := by simpa using hy
    exact due_eq_lex_iff_prio ascending (hxd.trans hyd.symm)
  · intro a b h
    cases ascending <;> simp only [sortComparator] at h ⊢
    · exact then_of_ne_eq h
    · exact then_of_ne_eq h

/-- C4 (witness): the tie-break property evaluated on the concrete record
list, at the all-`None` due class, and on the pair `rec1`, `rec2` with
distinct due dates. -/
theorem c4_due_then_priority_witness :
    List.Pairwise (fun a b => sortComparator .Due true a b ≠ .gt)
        (apply_sorting .DueThenPriority true [rec1, rec2, rec3])
    ∧ (apply_sorting .DueThenPriority true [rec1, rec2, rec3]).filter
          (fun x => x.due_date == none)
        = apply_sorting .Priority true
            ([rec1, rec2, rec3].filter (fun x => x.due_date == none))
    ∧ sortComparator .DueThenPriority true rec1 rec2
        = sortComparator .Due true rec1 rec2 :=
  ⟨(c4_due_then_priority true [rec1, rec2, rec3]).1,
    (c4_due_then_priority true [rec1, rec2, rec3]).2.1 none,
    (c4_due_then_priority true [rec1, rec2, rec3]).2.2 rec1 rec2 (by decide)⟩

/-! Concrete query specifications and records for the filter claims. -/

/-- Query with only `due_within = 7` set. -/
def qDueWithin7 : ListQuery :=
  ⟨.Due, false, false, false, false, none, false, false, false, some 7⟩

/-- Query with only `due_within = 0` set. -/
def qDueWithin0 : ListQuery :=
  ⟨.Due, false, false, false, false, none, false, false, false, some 0⟩

/-- Query with only `overdue` set. -/
def qOverdueOnly : ListQuery :=
  ⟨.Due, false, false, false, false, none, true, false, false, none⟩

/-- Query with only `due_today` set. -/
def qDueTodayOnly : ListQuery :=
  ⟨.Due, false, false, false, false, none, false, true, false, none⟩

/-- Record due 2025-08-12 at midnight. -/
def itemAug12 : TodoItem := mkItem 10 (some ⟨fromYmd 2025 8 12, 0⟩) none

/-- Record due 2025-08-20 at midnight. -/
def itemAug20 : TodoItem := mkItem 11 (some ⟨fromYmd 2025 8 20, 0⟩) none

/-- Record due 2025-08-01 at midnight (in the past on 2025-08-07). -/
def itemAug1 : TodoItem := mkItem 12 (some ⟨fromYmd 2025 8 1, 0⟩) none

/-- Record due 2025-08-07 at 08:00. -/
def item0807Morning : TodoItem :=
  mkItem 13 (some ⟨fromYmd 2025 8 7, 28800⟩) none

/-- Record due 2025-08-07 at 18:00. -/
def item0807Evening : TodoItem :=
  mkItem 14 (some ⟨fromYmd 2025 8 7, 64800⟩) none

/-- The instant 2025-08-07 at midnight. -/
def now0807 : NaiveDateTime := ⟨fromYmd 2025 8 7, 0⟩

/-- The instant 2025-08-07 at 12:00. -/
def now0807Noon : NaiveDateTime := ⟨fromYmd 2025 8 7, 43200⟩

/-- C5: with at least one filter set, `item_passes_filters` is the AND of
the status, priority and time groups, where the time group passes exactly
when no time predicate is requested or some requested predicate holds on
the record's due date; a record without a due date fails the time group
whenever a time predicate is active. -/
theorem c5_filter_composition (q : ListQuery) (item : TodoItem)
    (now : NaiveDateTime) (h : q.has_any_filters = true) :
    (q.item_passes_filters item now = true ↔
      (q.passes_status_filter item = true ∧
        q.passes_priority_filter item = true ∧
        ((q.overdue = false ∧ q.due_today = false ∧ q.due_tomorrow = false ∧
            q.due_within = none) ∨
          (∃ dt, item.due_date = some dt ∧
            ((q.overdue = true ∧ dt.ltb now = true) ∨
              (q.due_today = true ∧ dt.date = now.date) ∨
              (q.due_tomorrow = true ∧ dt.date = now.date + 1) ∨
              (∃ n, q.due_within = some n ∧ now.date ≤ dt.date ∧
                dt.date ≤ now.date + n))))))
    ∧ (item.due_date = none →
        (q.overdue = true ∨ q.due_today = true ∨ q.due_tomorrow = true ∨
          q.due_within.isSome = true) →
        q.passes_time_filter item now = false) := by
  have htime : q.passes_time_filter item now = true ↔
      ((q.overdue = false ∧ q.due_today = false ∧ q.due_tomorrow = false ∧
          q.due_within = none) ∨
        (∃ dt, item.due_date = some dt ∧
          ((q.overdue = true ∧ dt.ltb now = true) ∨
            (q.due_today = true ∧ dt.date = now.date) ∨
            (q.due_tomorrow = true ∧ dt.date = now.date + 1) ∨
            (∃ n, q.due_within = some n ∧ now.date ≤ dt.date ∧
              dt.date ≤ now.date + n)))) := by
    unfold ListQuery.passes_time_filter ListQuery.is_overdue
      ListQuery.is_due_today ListQuery.is_due_tomorrow ListQuery.is_due_within
    cases hdue : item.due_date <;>
      cases ho : q.overdue <;> cases htd : q.due_today <;>
      cases htm : q.due_tomorrow <;> cases hdw : q.due_within <;>
      simp [hdue, Option.any, Option.isNone] <;> tauto
  constructor
  · have hsplit : q.item_passes_filters item now
        = (q.passes_status_filter item && q.passes_priority_filter item
            && q.passes_time_filter item now) := by
      unfold ListQuery.item_passes_filters
      rw [h]
      simp only [Bool.not_true]
      rw [if_neg Bool.false_ne_true]
    rw [hsplit]
    simp only [Bool.and_eq_true]
    rw [htime]
    exact and_assoc
  · intro hdue hact
    have hcond : (!q.overdue && !q.due_today && !q.due_tomorrow
        && q.due_within.isNone) = false := by
      rcases hact with ha | ha | ha | ha
      · simp [ha]
      · simp [ha]
      · simp [ha]
      · rcases hdw : q.due_within with _ | n
        · rw [hdw] at ha
          simp at ha
        · simp [hdw]
    unfold ListQuery.passes_time_filter ListQuery.is_overdue
      ListQuery.is_due_today ListQuery.is_due_tomorrow ListQuery.is_due_within
    rw [hcond, if_neg Bool.false_ne_true]
    cases hdw : q.due_within <;> simp [hdue, Option.any, ite_self]

/-- C5 (witness): the composition law applied to the overdue-only query on
a record due 2025-08-07 08:00 evaluated at 2025-08-07 12:00. -/
theorem c5_filter_composition_witness :
    qOverdueOnly.has_any_filters = true ∧
      qOverdueOnly.item_passes_filters item0807Morning now0807Noon = true :=
  ⟨rfl, ((c5_filter_composition qOverdueOnly item0807Morning now0807Noon
      rfl).1).mpr
    ⟨rfl, rfl, Or.inr ⟨⟨fromYmd 2025 8 7, 28800⟩, rfl,
      Or.inl ⟨rfl, by decide⟩⟩⟩⟩

/-- C6: `is_due_within` holds exactly when the record's due calendar day
lies between today and today plus the requested window, both inclusive;
in particular a due day strictly before today fails.  On the spec's
instance (now 2025-08-07, window 7): due 2025-08-12 is included, due
2025-08-20 excluded, due 2025-08-01 excluded. -/
theorem c6_due_within_window :
    (∀ (q : ListQuery) (item : TodoItem) (now dt : NaiveDateTime) (n : Int),
        q.due_within = some n → item.due_date = some dt →
        (q.is_due_within item now = true ↔
          (now.date ≤ dt.date ∧ dt.date ≤ now.date + n)))
    ∧ (∀ (q : ListQuery) (item : TodoItem) (now dt : NaiveDateTime) (n : Int),
        q.due_within = some n → item.due_date = some dt →
        dt.date < now.date → q.is_due_within item now = false)
    ∧ qDueWithin7.item_passes_filters itemAug12 now0807 = true
    ∧ qDueWithin7.item_passes_filters itemAug20 now0807 = false
    ∧ qDueWithin7.item_passes_filters itemAug1 now0807 = false := by
  have main : ∀ (q : ListQuery) (item : TodoItem) (now dt : NaiveDateTime)
      (n : Int), q.due_within = some n → item.due_date = some dt →
      (q.is_due_within item now = true ↔
        (now.date ≤ dt.date ∧ dt.date ≤ now.date + n)) := by
    intro q item now dt n hq hdue
    unfold ListQuery.is_due_within
    rw [hq]
    simp [hdue, Option.any, ge_iff_le]
  refine ⟨main, ?_, by decide, by decide, by decide⟩
  intro q item now dt n hq hdue hlt
  have hiff := main q item now dt n hq hdue
  cases hx : q.is_due_within item now with
  | false => rfl
  | true =>
    exfalso
    have hc := hiff.mp hx
    omega

/-- C6 (witness): the window characterization applied to the record due
2025-08-12 with now = 2025-08-07 and window 7. -/
theorem c6_due_within_window_witness :
    qDueWithin7.due_within = some 7 ∧
      itemAug12.due_date = some ⟨fromYmd 2025 8 12, 0⟩ ∧
      (qDueWithin7.is_due_within itemAug12 now0807 = true ↔
        (now0807.date ≤ (fromYmd 2025 8 12 : Int) ∧
          (fromYmd 2025 8 12 : Int) ≤ now0807.date + 7)) :=
  ⟨rfl, rfl,
    c6_due_within_window.1 qDueWithin7 itemAug12 now0807
      ⟨fromYmd 2025 8 12, 0⟩ 7 rfl rfl⟩

/-- C7: `is_overdue` holds exactly when the record has a due timestamp
strictly earlier than the evaluation instant; equality does not count, and
the comparison is on full timestamps: on the spec's instance (now
2025-08-07 12:00, only `overdue` set) a record due 08:00 the same day is
included and one due 18:00 is excluded. -/
theorem c7_overdue_strict :
    (∀ (q : ListQuery) (item : TodoItem) (now : NaiveDateTime),
        q.overdue = true →
        (q.is_overdue item now = true ↔
          ∃ dt, item.due_date = some dt ∧ dt.ltb now = true))
    ∧ (∀ (q : ListQuery) (item : TodoItem) (now dt : NaiveDateTime),
        item.due_date = some dt → dt = now →
        q.is_overdue item now = false)
    ∧ qOverdueOnly.item_passes_filters item0807Morning now0807Noon = true
    ∧ qOverdueOnly.item_passes_filters item0807Evening now0807Noon = false := by
  refine ⟨?_, ?_, by decide, by decide⟩
  · intro q item now hq
    unfold ListQuery.is_overdue
    simp [hq]
    cases hdue : item.due_date <;> simp [Option.any]
  · intro q item now dt hdue heq
    unfold ListQuery.is_overdue
    cases hq : q.overdue <;> simp [hdue, Option.any, heq, NaiveDateTime.ltb]

/-- C7 (witness): the strict-overdue characterization applied to the
morning record at noon of the same day. -/
theorem c7_overdue_strict_witness :
    qOverdueOnly.overdue = true ∧
      (qOverdueOnly.is_overdue item0807Morning now0807Noon = true ↔
        ∃ dt, item0807Morning.due_date = some dt ∧
          dt.ltb now0807Noon = true) :=
  ⟨rfl, c7_overdue_strict.1 qOverdueOnly item0807Morning now0807Noon rfl⟩

/-- C8 (clock dependence): the time filters read the ambient clock inside
each predicate (`Local::now()` in `is_due_today` and its siblings), so the
same record under the same query evaluates differently at two clock
instants — the value the code samples is state, not a caller-supplied
parameter of the pipeline entry point. -/
theorem c8_clock_dependence :
    qDueTodayOnly.passes_time_filter itemAug12 ⟨fromYmd 2025 8 12, 43200⟩
        = true
    ∧ qDueTodayOnly.passes_time_filter itemAug12 ⟨fromYmd 2025 8 13, 43200⟩
        = false := by
  decide

/-- Trace of ids handed out by `add_todo` grows by exactly the printed id.
Helper for C9. -/
theorem add_todo_next_id {m m' : TodoManager} {t : String}
    {d : Option String} {due : Option NaiveDateTime} {p : Option Priority}
    {tags : Option (List String)} {now : NaiveDateTime}
    (h : m.add_todo t d due p tags now = some m') :
    m'.next_id = m.next_id + 1 := by
  unfold TodoManager.add_todo at h
  split at h
  · exact Option.noConfusion h
  · split at h
    · split at h
      · exact Option.noConfusion h
      · injection h with h2
        rw [← h2]
    · injection h with h2
      rw [← h2]

/-- Deleting never changes `next_id`. -/
theorem delete_todo_next_id {m m' : TodoManager} {id : Nat}
    (h : m.delete_todo id = some m') : m'.next_id = m.next_id := by
  simp only [TodoManager.delete_todo] at h
  split at h
  · injection h with h2
    rw [← h2]
  · exact Option.noConfusion h

/-- Toggling never changes `next_id`. -/
theorem toggle_todo_next_id {m m' : TodoManager} {id : Nat}
    {now : NaiveDateTime} (h : m.toggle_todo id now = some m') :
    m'.next_id = m.next_id := by
  simp only [TodoManager.toggle_todo] at h
  split at h
  · exact Option.noConfusion h
  · split at h
    · injection h with h2
      rw [← h2]
    · exact Option.noConfusion h

/-- The manager's `next_id` never decreases under any operation. -/
theorem stepOp_next_id_mono (m : TodoManager) (op : ManagerOp) :
    m.next_id ≤ (stepOp m op).1.next_id := by
  cases op with
  | add t d due p tags now =>
    rcases h : m.add_todo t d due p tags now with _ | m'
    · simp [stepOp, h]
    · simp [stepOp, h, add_todo_next_id h]
  | delete id =>
    rcases h : m.delete_todo id with _ | m'
    · simp [stepOp, h]
    · simp [stepOp, h, delete_todo_next_id h]
  | toggle id now =>
    rcases h : m.toggle_todo id now with _ | m'
    · simp [stepOp, h]
    · simp [stepOp, h, toggle_todo_next_id h]
  | clearAll => exact Nat.le_refl _

/-- The ids assigned by one operation: none, or exactly the pre-state's
`next_id`, in which case `next_id` advances past it. -/
theorem stepOp_ids (m : TodoManager) (op : ManagerOp) :
    (stepOp m op).2 = [] ∨
      ((stepOp m op).2 = [m.next_id] ∧
        (stepOp m op).1.next_id = m.next_id + 1) := by
  cases op with
  | add t d due p tags now =>
    rcases h : m.add_todo t d due p tags now with _ | m'
    · exact Or.inl (by simp [stepOp, h])
    · exact Or.inr ⟨by simp [stepOp, h], by simp [stepOp, h, add_todo_next_id h]⟩
  | delete id => exact Or.inl rfl
  | toggle id now => exact Or.inl rfl
  | clearAll => exact Or.inl rfl

/-- The manager's `next_id` never decreases across a run. -/
theorem runOps_next_id_mono (ops : List ManagerOp) :
    ∀ m : TodoManager, m.next_id ≤ (runOps m ops).1.next_id := by
  induction ops with
  | nil => intro m; exact Nat.le_refl _
  | cons op ops ih =>
    intro m
    exact Nat.le_trans (stepOp_next_id_mono m op) (ih (stepOp m op).1)

/-- Every id assigned during a run is at least the starting `next_id`. -/
theorem runOps_ids_lb (ops : List ManagerOp) :
    ∀ (m : TodoManager) (i : Nat), i ∈ (runOps m ops).2 → m.next_id ≤ i := by
  induction ops with
  | nil => intro m i hi; simp [runOps] at hi
  | cons op ops ih =>
    intro m i hi
    simp only [runOps, List.mem_append] at hi
    rcases hi with hi | hi
    · rcases stepOp_ids m op with he | ⟨he, _⟩
      · rw [he] at hi; simp at hi
      · rw [he] at hi
        simp at hi
        omega
    · exact Nat.le_trans (stepOp_next_id_mono m op) (ih _ i hi)

/-- C9 (amended): within a single `TodoManager` lifetime (no reload), the
assigned ids are strictly increasing — each created todo's id exceeds
every id assigned before it, so ids are never reused even after deletions;
and every assigned id exceeds every id already present in the loaded
file. -/
theorem c9_amended :
    (∀ (m : TodoManager) (ops : List ManagerOp),
      ((runOps m ops).2).Pairwise (fun i j => i < j))
    ∧ (∀ (l : List TodoItem) (ops : List ManagerOp) (t : TodoItem) (i : Nat),
        t ∈ l → i ∈ (runOps (TodoManager.fromLoaded l) ops).2 → t.id < i) := by
  have hmax : ∀ (l : List TodoItem) (t : TodoItem), t ∈ l →
      t.id ≤ (l.map TodoItem.id).foldr max 0 := by
    intro l
    induction l with
    | nil => intro t ht; simp at ht
    | cons a l ih =>
      intro t ht
      rcases List.mem_cons.mp ht with rfl | ht
      · exact Nat.le_max_left _ _
      · exact Nat.le_trans (ih t ht) (Nat.le_max_right _ _)
  constructor
  · intro m ops
    induction ops generalizing m with
    | nil => exact List.Pairwise.nil
    | cons op ops ih =>
      simp only [runOps]
      rw [List.pairwise_append]
      refine ⟨?_, ih (stepOp m op).1, ?_⟩
      · rcases stepOp_ids m op with he | ⟨he, _⟩ <;> rw [he] <;> simp
      · intro a ha b hb
        rcases stepOp_ids m op with he | ⟨he, hn⟩
        · rw [he] at ha; simp at ha
        · rw [he] at ha
          simp at ha
          have hle := runOps_ids_lb ops (stepOp m op).1 b hb
          omega
  · intro l ops t i ht hi
    have h1 := hmax l t ht
    have h2 := runOps_ids_lb ops (TodoManager.fromLoaded l) i hi
    simp only [TodoManager.fromLoaded] at h2
    omega

/-- C9 (witness): the amended monotonicity at a concrete run: loading a
file containing only `rec1` (id 1) and adding one todo assigns id 2. -/
theorem c9_amended_witness :
    ((runOps (TodoManager.fromLoaded [rec1])
        [ManagerOp.add "a" none none none none dtZero]).2).Pairwise
      (fun i j => i < j)
    ∧ rec1.id < 2 :=
  ⟨c9_amended.1 (TodoManager.fromLoaded [rec1])
      [ManagerOp.add "a" none none none none dtZero],
    c9_amended.2 [rec1] [ManagerOp.add "a" none none none none dtZero]
      rec1 2 (by decide) (by decide)⟩

/-- Operation sequence for the C9 counterexample: create ids 1 and 2, then
delete the highest id. -/
def c9ops : List ManagerOp :=
  [.add "a" none none none none dtZero, .add "b" none none none none dtZero,
    .delete 2]

/-- C9 (counterexample): starting from an empty store, ids 1 and 2 are
assigned; after deleting id 2, persisting, and constructing a new
`TodoManager` over the persisted file, the next `add_todo` re-assigns the
previously used id 2 — `TodoManager::new` recomputes `next_id` as the
maximum surviving id plus one. -/
theorem c9_counterexample :
    (runOps (TodoManager.fromLoaded []) c9ops).2 = [1, 2]
    ∧ (stepOp ((runOps (TodoManager.fromLoaded []) c9ops).1.reload)
        (.add "c" none none none none dtZero)).2 = [2] := by
  decide

/-- C10: the date condition of `DueWithinDays(0)` coincides with the date
condition of `DueToday`: under any fixed evaluation instant, a query with
`due_within = some 0` includes a record through `is_due_within` exactly
when a query with `due_today` set includes it through `is_due_today`. -/
theorem c10_due_within_zero_eq_due_today (q0 qT : ListQuery)
    (item : TodoItem) (now : NaiveDateTime)
    (h0 : q0.due_within = some 0) (hT : qT.due_today = true) :
    q0.is_due_within item now = qT.is_due_today item now := by
  unfold ListQuery.is_due_within ListQuery.is_due_today
  rw [h0]
  rw [Bool.eq_iff_iff]
  cases hdue : item.due_date <;> simp [hT, Option.any, ge_iff_le]
  omega

/-- C10 (witness): the equivalence at the record due 2025-08-12 evaluated
on 2025-08-12. -/
theorem c10_due_within_zero_eq_due_today_witness :
    qDueWithin0.due_within = some 0 ∧ qDueTodayOnly.due_today = true ∧
      qDueWithin0.is_due_within itemAug12 ⟨fromYmd 2025 8 12, 100⟩
        = qDueTodayOnly.is_due_today itemAug12 ⟨fromYmd 2025 8 12, 100⟩ :=
  ⟨rfl, rfl,
    c10_due_within_zero_eq_due_today qDueWithin0 qDueTodayOnly itemAug12
      ⟨fromYmd 2025 8 12, 100⟩ rfl rfl⟩

end TodoCli
